import Mathlib

/-!
Verification of the WikiTruth collaborative-highlighting core.

This file is a shallow embedding, in Lean, of the highlight store and
matcher of src/highlight_utils.py and of the heading-marker section
splitter of src/doc_utils.py, together with theorems that settle the
specification claims about them.

Modelling conventions:
- Python strings are Lean String values; character-level scanning is done
  on the underlying List Char.
- The regex pass of apply_highlights_to_text compiles, for each candidate
  c, the pattern (?<![a-zA-Z0-9])re.escape(c)(?![a-zA-Z0-9]) with
  IGNORECASE and substitutes every non-overlapping match left to right.
  Since the candidate is escaped, this is literal case-insensitive
  matching guarded by the two ASCII-alphanumeric lookarounds; subMarkF
  below implements exactly that scan with a literal replacement.  Two
  source behaviours are outside subMarkF and are therefore carried as
  explicit hypotheses (asciiOnly, backslashFree) on every universally
  quantified matcher theorem, so that each such theorem is stated only on
  the domain where subMarkF and the source agree exactly:
  (a) a backslash in the candidate makes re.sub process the replacement
  f-string as a template: group references such as a backslash-g reference
  insert the original-case match, and malformed escapes raise re.error,
  which the source catches and answers with a plain str.replace that
  ignores case and boundaries; backslashFree candidates make the template
  literal and that fallback unreachable;
  (b) IGNORECASE applies Unicode simple case folding, under which a few
  non-ASCII characters (long s, the Kelvin sign, ...) match ASCII letters;
  on asciiOnly candidate and text it coincides with the ASCII
  Char.toLower-equality used by ciPref.
  The concrete-input theorems all evaluate inside this exact domain.
- The JSON file behind the store is modelled by FileState: absent,
  unparseable (json.JSONDecodeError, caught by load_highlights), or a
  parsed dictionary.  A Python dict is modelled as an association list in
  insertion order, which is exactly the iteration and json round-trip
  order of the source.
- time.time() timestamps are modelled as an explicit Nat argument, and
  Python str.strip() as the strip function below, over the exact character
  set for which str.isspace() holds (the same set the regex class \s
  matches on str patterns), so the whitespace-only guard of save_highlight
  is modelled exactly.
-/

namespace WikiTruth

/-- ASCII letters and digits: the character class [a-zA-Z0-9] used by the
word-boundary lookarounds in apply_highlights_to_text. -/
def isAsciiAlnum (c : Char) : Bool :=
  c.isAlpha || c.isDigit

/-- Case-insensitive prefix test: the escaped literal candidate matched with
IGNORECASE at the head of the remaining text. -/
def ciPref : List Char → List Char → Bool
  | [], _ => true
  | _ :: _, [] => false
  | c :: cs, x :: xs => (c.toLower == x.toLower) && ciPref cs xs

/-- Negative lookbehind (?<![a-zA-Z0-9]): the character just before the match
site, none at the start of the text. -/
def boundaryBefore : Option Char → Bool
  | none => true
  | some c => !(isAsciiAlnum c)

/-- Negative lookahead (?![a-zA-Z0-9]): the text just after the match site. -/
def boundaryAfter : List Char → Bool
  | [] => true
  | c :: _ => !(isAsciiAlnum c)

/-- Opening tag inserted by the substitution. -/
def markOpen : List Char := "<mark>".data

/-- Closing tag inserted by the substitution. -/
def markClose : List Char := "</mark>".data

/-- One re.sub pass for a single candidate: scan the text left to right,
wrap each lookaround-guarded case-insensitive occurrence of the candidate,
and continue just past it.  The replacement inserts the stored candidate
itself, exactly as the source passes f-string "<mark>{highlight_text}</mark>"
as the replacement.  prev is the original-text character preceding the scan
position (the lookbehind input).  The fuel argument is the scan-position
bound; markOne passes length + 1, which the scan can never exhaust since
every step consumes at least one character of the text. -/
def subMarkF (cand : List Char) : Nat → Option Char → List Char → List Char
  | 0, _, s => s
  | fuel + 1, prev, s =>
    match s with
    | [] => if cand.isEmpty && boundaryBefore prev then markOpen ++ markClose else []
    | x :: xs =>
      if ciPref cand (x :: xs) && boundaryBefore prev
          && boundaryAfter ((x :: xs).drop cand.length) then
        if cand.isEmpty then
          markOpen ++ markClose ++ x :: subMarkF cand fuel (some x) xs
        else
          markOpen ++ cand ++ markClose
            ++ subMarkF cand fuel (some (((x :: xs).take cand.length).getLastD x))
                ((x :: xs).drop cand.length)
      else
        x :: subMarkF cand fuel (some x) xs

/-- The body of the per-candidate loop in apply_highlights_to_text: one
substitution pass of the candidate over the whole text. -/
def markOne (text : String) (highlight_text : String) : String :=
  ⟨subMarkF highlight_text.data (text.data.length + 1) none text.data⟩

/-- Stable insertion step for sorting by length, descending: an earlier
element stays in front of later elements of equal length, matching Python
sorted(key=len, reverse=True). -/
def insByLenDesc (x : String) : List String → List String
  | [] => [x]
  | y :: ys => if y.length ≤ x.length then x :: y :: ys else y :: insByLenDesc x ys

/-- sorted(texts, key=len, reverse=True): stable descending length sort. -/
def sortByLenDesc (l : List String) : List String :=
  l.foldr insByLenDesc []

/-- A persisted highlight record: {"text": ..., "context": ..., "timestamp": ...}. -/
structure HighlightRecord where
  text : String
  context : String
  timestamp : Nat
deriving DecidableEq, Repr

/-- apply_highlights_to_text from src/highlight_utils.py: return the text
unchanged when it or the record list is empty, otherwise run one
substitution pass per stored text, longest first. -/
def apply_highlights_to_text (text : String) (highlights : List HighlightRecord) : String :=
  if text = "" ∨ highlights = [] then text
  else (sortByLenDesc (highlights.map (fun h => h.text))).foldl markOne text

/-- C1 (corrected): with highlights "New York" and "New York City" and text
"I visited New York City", the longest-first pass marks the full
"New York City" once, but the second pass then also wraps the inner
"New York" in a nested mark: the lookarounds only block alphanumeric
neighbours, and inside the already-marked text "New York" is delimited by
a tag bracket and a space. -/
theorem apply_highlights_longest_first_nested :
    apply_highlights_to_text "I visited New York City"
        [⟨"New York", "summary", 0⟩, ⟨"New York City", "summary", 1⟩]
      = "I visited <mark><mark>New York</mark> City</mark>" := by decide

/-- C1 counterexample: the rendered output is the nested-mark string, not
the claimed output with the full phrase marked alone. -/
theorem apply_highlights_nested_counterexample :
    apply_highlights_to_text "I visited New York City"
        [⟨"New York", "summary", 0⟩, ⟨"New York City", "summary", 1⟩]
      = "I visited <mark><mark>New York</mark> City</mark>" ∧
    apply_highlights_to_text "I visited New York City"
        [⟨"New York", "summary", 0⟩, ⟨"New York City", "summary", 1⟩]
      ≠ "I visited <mark>New York City</mark>" := by decide

/-- C2 counterexample: for text "Hello" and stored highlight "hello", the
match is case-insensitive but the replacement inserts the stored lowercase
text, not the original-case "Hello" found at the match site. -/
theorem apply_highlights_casing_counterexample :
    apply_highlights_to_text "Hello" [⟨"hello", "summary", 0⟩] = "<mark>hello</mark>" ∧
    apply_highlights_to_text "Hello" [⟨"hello", "summary", 0⟩] ≠ "<mark>Hello</mark>" := by
  decide

/-- Case-insensitive equality of two character lists. -/
def ciEq : List Char → List Char → Bool
  | [], [] => true
  | c :: cs, x :: xs => (c.toLower == x.toLower) && ciEq cs xs
  | _, _ => false

theorem subMarkF_nil (cand : List Char) (hc : cand ≠ []) (fuel : Nat) (prev : Option Char) :
    subMarkF cand fuel prev [] = [] := by
  cases fuel with
  | zero => rfl
  | succ f => simp [subMarkF, List.isEmpty_iff, hc]

theorem ciEq_take_of_ciPref : ∀ {c s : List Char}, ciPref c s = true →
    ciEq c (s.take c.length) = true := by
  intro c
  induction c with
  | nil => intro s _; simp [ciEq]
  | cons a as ih =>
    intro s h
    cases s with
    | nil => simp [ciPref] at h
    | cons x xs =>
      simp only [ciPref, Bool.and_eq_true] at h
      simp only [List.length_cons, List.take_succ_cons, ciEq, Bool.and_eq_true]
      exact ⟨h.1, ih h.2⟩

/-- Every character is ASCII.  On an ASCII candidate and ASCII text the
Char.toLower matching of ciPref is exactly the IGNORECASE matching of the
source: the Unicode simple-folding pairs that match a non-ASCII character
against an ASCII letter cannot occur. -/
def asciiOnly (s : List Char) : Bool :=
  s.all (fun c => decide (c.toNat < 128))

/-- No backslash.  A backslash-free candidate makes the replacement
f-string a literal template, so re.sub inserts it verbatim; with a
backslash the template could expand a group reference to the original-case
match or raise re.error, whose except branch in the source does a plain
boundary-ignoring str.replace. -/
def backslashFree (s : List Char) : Bool :=
  s.all (fun c => c != '\\')

/-- Output t arises from input s by keeping characters and replacing whole
case-insensitive occurrences of the candidate by the STORED candidate
wrapped in the mark tags. -/
inductive MarkedWith (cand : List Char) : List Char → List Char → Prop
  | nil : MarkedWith cand [] []
  | keep {x : Char} {s t : List Char} :
      MarkedWith cand s t → MarkedWith cand (x :: s) (x :: t)
  | wrap (m : List Char) {s t : List Char} :
      ciEq cand m = true → MarkedWith cand s t →
      MarkedWith cand (m ++ s) (markOpen ++ cand ++ markClose ++ t)

theorem markedWith_refl (cand : List Char) : ∀ s : List Char, MarkedWith cand s s
  | [] => .nil
  | _ :: xs => .keep (markedWith_refl cand xs)

/-- Soundness of the substitution pass: whatever the scan replaces is a
case-insensitive occurrence of the candidate, and what it inserts there is
the stored candidate in mark tags; everything else is kept. -/
theorem subMarkF_markedWith (cand : List Char) (hc : cand ≠ []) :
    ∀ (fuel : Nat) (prev : Option Char) (s : List Char),
      MarkedWith cand s (subMarkF cand fuel prev s) := by
  intro fuel
  induction fuel with
  | zero => intro prev s; exact markedWith_refl cand s
  | succ f ih =>
    intro prev s
    cases s with
    | nil =>
      rw [subMarkF_nil cand hc]
      exact .nil
    | cons x xs =>
      by_cases hcond : (ciPref cand (x :: xs) && boundaryBefore prev
          && boundaryAfter ((x :: xs).drop cand.length)) = true
      · simp only [subMarkF, hcond, if_true]
        rw [if_neg (by simp [List.isEmpty_iff, hc])]
        have h1 : ciPref cand (x :: xs) = true := by
          simp only [Bool.and_eq_true] at hcond
          exact hcond.1.1
        have hw := MarkedWith.wrap ((x :: xs).take cand.length)
          (ciEq_take_of_ciPref h1)
          (ih (some (((x :: xs).take cand.length).getLastD x)) ((x :: xs).drop cand.length))
        rw [List.take_append_drop] at hw
        exact hw
      · simp only [subMarkF]
        rw [if_neg hcond]
        exact .keep (ih (some x) xs)

/-- C2 amended: at every match site the source substitutes the STORED
highlight text wrapped in the mark delimiter, discarding the original-case
text found there: the rendered output arises from the input text by keeping
characters and replacing whole case-insensitive occurrences of the stored
candidate by the tagged stored candidate, whatever the casing at the site.
Stated on ASCII, backslash-free candidates and ASCII text, the exact domain
of the literal-template regex pass modelled by subMarkF (see the
asciiOnly and backslashFree comments for the two source behaviours outside
that domain). -/
theorem apply_highlights_inserts_stored_text (cand text context : String) (n : Nat)
    (hc : cand.data ≠ []) (_ha : asciiOnly cand.data = true)
    (_ht : asciiOnly text.data = true) (_hb : backslashFree cand.data = true) :
    MarkedWith cand.data text.data
      (apply_highlights_to_text text [⟨cand, context, n⟩]).data := by
  by_cases h0 : text = ""
  · rw [apply_highlights_to_text, if_pos (Or.inl h0)]
    exact markedWith_refl cand.data text.data
  · rw [apply_highlights_to_text, if_neg (by simp [h0])]
    exact subMarkF_markedWith cand.data hc (text.data.length + 1) none text.data

/-- C2 amended, witness at the counterexample input. -/
theorem apply_highlights_inserts_stored_text_witness :
    (("hello" : String).data ≠ [] ∧ asciiOnly ("hello" : String).data = true ∧
      asciiOnly ("Hello" : String).data = true ∧
      backslashFree ("hello" : String).data = true) ∧
    MarkedWith ("hello" : String).data ("Hello" : String).data
      (apply_highlights_to_text "Hello" [⟨"hello", "summary", 0⟩]).data :=
  ⟨⟨by decide, by decide, by decide, by decide⟩,
    apply_highlights_inserts_stored_text "hello" "Hello" "summary" 0
      (by decide) (by decide) (by decide) (by decide)⟩

/-- C7 counterexample: the source does not deduplicate the stored texts, so
two records with the same text run the substitution twice and the second
pass re-marks the already-marked occurrence, unlike the deduplicated list. -/
theorem duplicate_highlight_counterexample :
    apply_highlights_to_text "cat dog" [⟨"cat", "a", 0⟩, ⟨"cat", "b", 1⟩]
      = "<mark><mark>cat</mark></mark> dog" ∧
    apply_highlights_to_text "cat dog" [⟨"cat", "a", 0⟩]
      = "<mark>cat</mark> dog" ∧
    apply_highlights_to_text "cat dog" [⟨"cat", "a", 0⟩, ⟨"cat", "b", 1⟩]
      ≠ apply_highlights_to_text "cat dog" [⟨"cat", "a", 0⟩] := by decide

/-- C7 (corrected): render runs one pass per record, duplicates included; a
duplicated text is wrapped again on the second pass, so the output for the
duplicated sequence is the doubly-nested marking and differs from the
output for the deduplicated sequence. -/
theorem duplicate_highlight_double_marks :
    apply_highlights_to_text "cat dog" [⟨"cat", "a", 0⟩, ⟨"cat", "b", 1⟩]
      = "<mark><mark>cat</mark></mark> dog" ∧
    apply_highlights_to_text "cat dog" [⟨"cat", "a", 0⟩]
      = "<mark>cat</mark> dog" := by decide

/-- Head of a character list is an ASCII alphanumeric. -/
def headAlnum : List Char → Bool
  | [] => false
  | c :: _ => isAsciiAlnum c

/-- The character just before scan position i is an ASCII alphanumeric; at
position 0 this is the lookbehind input prev. -/
def prevAlnum (prev : Option Char) (s : List Char) : Nat → Bool
  | 0 =>
    match prev with
    | none => false
    | some c => isAsciiAlnum c
  | i + 1 =>
    match s.get? i with
    | some c => isAsciiAlnum c
    | none => false

/-- The character just after an occurrence of the candidate at position i is
an ASCII alphanumeric. -/
def afterAlnum (cand s : List Char) (i : Nat) : Bool :=
  headAlnum (s.drop (i + cand.length))

theorem prevAlnum_zero (prev : Option Char) (s : List Char) :
    prevAlnum prev s 0 = !boundaryBefore prev := by
  cases prev with
  | none => rfl
  | some c => simp [prevAlnum, boundaryBefore]

theorem headAlnum_eq_not_boundaryAfter (l : List Char) :
    headAlnum l = !boundaryAfter l := by
  cases l with
  | nil => rfl
  | cons c cs => simp [headAlnum, boundaryAfter]

theorem prevAlnum_cons (prev : Option Char) (x : Char) (xs : List Char) (i : Nat) :
    prevAlnum prev (x :: xs) (i + 1) = prevAlnum (some x) xs i := by
  cases i with
  | zero => rfl
  | succ j => rfl

theorem afterAlnum_cons (cand : List Char) (x : Char) (xs : List Char) (i : Nat) :
    afterAlnum cand (x :: xs) (i + 1) = afterAlnum cand xs i := by
  show headAlnum ((x :: xs).drop (i + 1 + cand.length)) = headAlnum (xs.drop (i + cand.length))
  rw [Nat.add_right_comm i 1 cand.length, List.drop_succ_cons]

/-- If every case-insensitive occurrence of the candidate in the text is
immediately preceded or followed by an ASCII alphanumeric character, the
substitution pass leaves the text unchanged: the lookarounds reject every
occurrence. -/
theorem subMarkF_no_boundary_match (cand : List Char) (hc : cand ≠ []) :
    ∀ (fuel : Nat) (prev : Option Char) (s : List Char),
      (∀ i < s.length, ciPref cand (s.drop i) = true →
        (prevAlnum prev s i || afterAlnum cand s i) = true) →
      subMarkF cand fuel prev s = s := by
  intro fuel
  induction fuel with
  | zero => intro prev s _; rfl
  | succ f ih =>
    intro prev s hocc
    cases s with
    | nil => exact subMarkF_nil cand hc _ _
    | cons x xs =>
      have hcond : ¬ ((ciPref cand (x :: xs) && boundaryBefore prev
          && boundaryAfter ((x :: xs).drop cand.length)) = true) := by
        intro hcnd
        simp only [Bool.and_eq_true] at hcnd
        obtain ⟨⟨hp, hb⟩, ha⟩ := hcnd
        have h0 := hocc 0 (by simp) (by simpa using hp)
        rw [prevAlnum_zero] at h0
        have ha0 : afterAlnum cand (x :: xs) 0 = false := by
          show headAlnum ((x :: xs).drop (0 + cand.length)) = false
          rw [Nat.zero_add, headAlnum_eq_not_boundaryAfter, ha]
          rfl
        rw [hb, ha0] at h0
        simp at h0
      simp only [subMarkF]
      rw [if_neg hcond]
      congr 1
      apply ih (some x) xs
      intro i hi hp
      have := hocc (i + 1) (by simpa using Nat.succ_lt_succ hi)
        (by simpa [List.drop_succ_cons] using hp)
      rw [prevAlnum_cons, afterAlnum_cons] at this
      exact this

/-- C8 (confirmed): highlight "cat" leaves "concatenate" unmarked, and in
general the anchored match never fires at a site whose neighbouring
character on either side is a letter or a digit: when every occurrence is
alphanumeric-adjacent, the pass is the identity.  The general statement is
made on ASCII, backslash-free candidates and ASCII text, the exact domain
of the anchored literal-template pass modelled by subMarkF: a candidate
whose backslash makes the replacement template raise re.error is instead
handled by the source's except branch with a plain str.replace that
ignores boundaries (the spec itself concedes unintended partial-word marks
on that path), and Unicode case folding can match a non-ASCII character in
the text against an ASCII candidate letter. -/
theorem word_boundary_safety :
    apply_highlights_to_text "concatenate" [⟨"cat", "section_0", 0⟩] = "concatenate" ∧
    ∀ (cand text : String), cand.data ≠ [] →
      asciiOnly cand.data = true → asciiOnly text.data = true →
      backslashFree cand.data = true →
      (∀ i < text.data.length, ciPref cand.data (text.data.drop i) = true →
        (prevAlnum none text.data i || afterAlnum cand.data text.data i) = true) →
      markOne text cand = text := by
  constructor
  · decide
  · intro cand text hc _ _ _ hocc
    show String.mk (subMarkF cand.data (text.data.length + 1) none text.data) = text
    rw [subMarkF_no_boundary_match cand.data hc _ none text.data hocc]

/-- C8 witness: the general boundary property applied to "cat" against
"concatenate". -/
theorem word_boundary_safety_witness :
    (("cat" : String).data ≠ [] ∧ asciiOnly ("cat" : String).data = true ∧
      asciiOnly ("concatenate" : String).data = true ∧
      backslashFree ("cat" : String).data = true ∧
      ∀ i < ("concatenate" : String).data.length,
        ciPref ("cat" : String).data (("concatenate" : String).data.drop i) = true →
        (prevAlnum none ("concatenate" : String).data i
          || afterAlnum ("cat" : String).data ("concatenate" : String).data i) = true) ∧
    markOne "concatenate" "cat" = "concatenate" :=
  ⟨⟨by decide, by decide, by decide, by decide, by decide⟩,
    word_boundary_safety.2 "cat" "concatenate" (by decide) (by decide) (by decide)
      (by decide) (by decide)⟩

/-- Whitespace as recognised by Python: exactly the characters for which
str.isspace() holds, which is both the set str.strip() removes and the set
the regex class \s matches on str patterns: tab through carriage return,
the four ASCII separator controls 28-31, space, next line 0x85, no-break
space 0xa0, ogham space 0x1680, the en/em spaces 0x2000-0x200a, line and
paragraph separators 0x2028-0x2029, narrow no-break space 0x202f, medium
mathematical space 0x205f, and ideographic space 0x3000. -/
def isPyWs (c : Char) : Bool :=
  decide ((9 ≤ c.toNat ∧ c.toNat ≤ 13) ∨ (28 ≤ c.toNat ∧ c.toNat ≤ 31) ∨ c.toNat = 32
    ∨ c.toNat = 133 ∨ c.toNat = 160 ∨ c.toNat = 5760
    ∨ (8192 ≤ c.toNat ∧ c.toNat ≤ 8202) ∨ c.toNat = 8232 ∨ c.toNat = 8233
    ∨ c.toNat = 8239 ∨ c.toNat = 8287 ∨ c.toNat = 12288)

/-- Python str.strip() on a character list: drop whitespace at both ends. -/
def pyStrip (s : List Char) : List Char :=
  ((s.dropWhile isPyWs).reverse.dropWhile isPyWs).reverse

/-- Python str.strip(). -/
def strip (s : String) : String :=
  ⟨pyStrip s.data⟩

/-- The JSON object persisted in data/highlights.json: article id mapped to
its record list, as an association list in dict insertion order. -/
abbrev StoreMap := List (String × List HighlightRecord)

/-- dict.get(key, default []): the value at the first (only) matching key. -/
def dictGet (m : StoreMap) (k : String) : List HighlightRecord :=
  match m with
  | [] => []
  | (k', v) :: rest => if k' = k then v else dictGet rest k

/-- dict[key] = value: replace in place if the key is present, else append
a new entry at the end, exactly the Python dict update order. -/
def dictSet (m : StoreMap) (k : String) (v : List HighlightRecord) : StoreMap :=
  match m with
  | [] => [(k, v)]
  | (k', v') :: rest => if k' = k then (k, v) :: rest else (k', v') :: dictSet rest k v

/-- State of the backing file: missing, present but not parseable as JSON
(json.JSONDecodeError), or a parsed mapping. -/
inductive FileState where
  | absent
  | corrupt
  | stored (m : StoreMap)
deriving DecidableEq

/-- load_highlights: empty dict when the file is missing, empty dict when
json.load raises JSONDecodeError, otherwise the parsed mapping. -/
def load_highlights : FileState → StoreMap
  | .absent => []
  | .corrupt => []
  | .stored m => m

/-- save_highlights: json.dump rewrites the whole file with the mapping. -/
def save_highlights (m : StoreMap) : FileState :=
  .stored m

/-- get_highlights: the record list of one article, empty when absent. -/
def get_highlights (st : FileState) (article_id : String) : List HighlightRecord :=
  dictGet (load_highlights st) article_id

/-- save_highlight from src/highlight_utils.py: silently return on empty or
whitespace-only text, otherwise append the stripped text as a new record at
the end of the article's list and rewrite the file. -/
def save_highlight (st : FileState) (article_id text_to_highlight context : String)
    (now : Nat) : FileState :=
  if text_to_highlight = "" ∨ (strip text_to_highlight) = "" then st
  else
    let all_highlights := load_highlights st
    let article_highlights := dictGet all_highlights article_id
    let new_highlight : HighlightRecord := ⟨(strip text_to_highlight), context, now⟩
    save_highlights (dictSet all_highlights article_id
      (article_highlights ++ [new_highlight]))

/-- Outcome reported by the submit interface: success banner, warning for an
empty input box, or the not-found error. -/
inductive SubmitResult where
  | success
  | rejectedEmpty
  | rejectedNotFound
deriving DecidableEq

/-- needle is a literal (case-sensitive) prefix of haystack. -/
def litPref : List Char → List Char → Bool
  | [], _ => true
  | _ :: _, [] => false
  | c :: cs, x :: xs => (c == x) && litPref cs xs

/-- Python substring operator: needle in haystack, case-sensitive. -/
def substrOfList (n : List Char) : List Char → Bool
  | [] => n.isEmpty
  | x :: xs => litPref n (x :: xs) || substrOfList n xs

/-- Python highlight_text in text. -/
def strContains (haystack needle : String) : Bool :=
  substrOfList needle.data haystack.data

/-- create_highlight_interface from src/highlight_utils.py, reduced to its
submission decision: an empty input gets the warning, an input not found in
the shown text gets the error, otherwise save_highlight runs and the
success banner is shown.  Returns the reported outcome and the resulting
file state. -/
def create_highlight_interface (st : FileState) (text article_id context : String)
    (highlight_text : String) (now : Nat) : SubmitResult × FileState :=
  if highlight_text = "" then (.rejectedEmpty, st)
  else if strContains text highlight_text then
    (.success, save_highlight st article_id highlight_text context now)
  else (.rejectedNotFound, st)

theorem dictGet_dictSet_self (m : StoreMap) (k : String) (v : List HighlightRecord) :
    dictGet (dictSet m k v) k = v := by
  induction m with
  | nil => simp [dictGet, dictSet]
  | cons p rest ih =>
    obtain ⟨k', v'⟩ := p
    by_cases h : k' = k <;> simp [dictGet, dictSet, h, ih]

theorem dictGet_dictSet_ne (m : StoreMap) (k k' : String) (v : List HighlightRecord)
    (h : k ≠ k') : dictGet (dictSet m k v) k' = dictGet m k' := by
  induction m with
  | nil => simp [dictGet, dictSet, h]
  | cons p rest ih =>
    obtain ⟨k'', v''⟩ := p
    by_cases h2 : k'' = k
    · subst h2
      simp [dictGet, dictSet, h]
    · simp [dictGet, dictSet, h2, ih]

/-- A successful save_highlight appends exactly the stripped record at the
end of the submitting article's list. -/
theorem get_highlights_save (st : FileState) (article_id t c : String) (n : Nat)
    (h : (strip t) ≠ "") :
    get_highlights (save_highlight st article_id t c n) article_id
      = get_highlights st article_id ++ [⟨(strip t), c, n⟩] := by
  have hg : ¬ (t = "" ∨ (strip t) = "") := by
    rintro (rfl | h2)
    · exact h rfl
    · exact h h2
  rw [save_highlight, if_neg hg]
  show dictGet (dictSet (load_highlights st) article_id _) article_id = _
  rw [dictGet_dictSet_self]
  rfl

/-- C4 (corrected): a candidate whose stripped text is non-empty and which
occurs verbatim in the shown text is accepted, and the article's list gains
exactly that one stripped record at its end.  The non-empty-after-strip
hypothesis is forced by the counterexample below: a whitespace-only
candidate that occurs in the text is reported as a success but appends
nothing. -/
theorem submit_appends_exactly_one (st : FileState) (text article_id context cand : String)
    (n : Nat) (hne : (strip cand) ≠ "") (hin : strContains text cand = true) :
    (create_highlight_interface st text article_id context cand n).1 = SubmitResult.success ∧
    get_highlights (create_highlight_interface st text article_id context cand n).2 article_id
      = get_highlights st article_id ++ [⟨(strip cand), context, n⟩] := by
  have hce : cand ≠ "" := by
    rintro rfl
    exact hne rfl
  rw [create_highlight_interface, if_neg hce, if_pos hin]
  exact ⟨rfl, get_highlights_save st article_id cand context n hne⟩

/-- C4 witness: the claim's own example, "hello world" submitted against
source text "say hello world now" on an empty store. -/
theorem submit_appends_exactly_one_witness :
    (strip "hello world" ≠ "" ∧
      strContains "say hello world now" "hello world" = true) ∧
    ((create_highlight_interface FileState.absent "say hello world now" "a1" "summary"
        "hello world" 7).1 = SubmitResult.success ∧
      get_highlights (create_highlight_interface FileState.absent "say hello world now" "a1"
          "summary" "hello world" 7).2 "a1"
        = get_highlights FileState.absent "a1"
            ++ [⟨strip "hello world", "summary", 7⟩]) :=
  ⟨⟨by decide, by decide⟩,
    submit_appends_exactly_one FileState.absent "say hello world now" "a1" "summary"
      "hello world" 7 (by decide) (by decide)⟩

/-- C4 counterexample: the candidate " " occurs verbatim in the shown text,
the interface reports success, yet the store is unchanged: the article list
does not grow by one record. -/
theorem whitespace_submit_appends_nothing :
    (create_highlight_interface FileState.absent "say hello world now" "a1" "summary"
        " " 0).1 = SubmitResult.success ∧
    strContains "say hello world now" " " = true ∧
    (create_highlight_interface FileState.absent "say hello world now" "a1" "summary"
        " " 0).2 = FileState.absent := by decide

/-- C5 counterexample: a whitespace-only candidate that occurs in the shown
text is not rejected: the interface reports success (while silently storing
nothing). -/
theorem whitespace_submit_reports_success :
    (create_highlight_interface FileState.absent "a b" "a1" "c" " " 0).1
      = SubmitResult.success ∧
    (create_highlight_interface FileState.absent "a b" "a1" "c" " " 0).2
      = FileState.absent := by decide

/-- C5 (corrected): an empty or not-found candidate is rejected and a
whitespace-only candidate stores nothing, so in all those cases the file
state, and hence every article's load result, is unchanged; but only the
empty and not-found cases are actually reported as rejections, since a
whitespace-only candidate occurring in the text is reported as a success. -/
theorem rejected_submit_no_side_effect (st : FileState)
    (text article_id context cand : String) (n : Nat)
    (h : (strip cand) = "" ∨ strContains text cand = false) :
    (create_highlight_interface st text article_id context cand n).2 = st ∧
    ((cand = "" ∨ strContains text cand = false) →
      (create_highlight_interface st text article_id context cand n).1
        ≠ SubmitResult.success) := by
  by_cases hce : cand = ""
  · rw [create_highlight_interface, if_pos hce]
    exact ⟨rfl, fun _ => by simp⟩
  · by_cases hin : strContains text cand = true
    · have htrim : (strip cand) = "" := by
        rcases h with h1 | h2
        · exact h1
        · rw [hin] at h2; cases h2
      rw [create_highlight_interface, if_neg hce, if_pos hin]
      refine ⟨?_, ?_⟩
      · show save_highlight st article_id cand context n = st
        rw [save_highlight, if_pos (Or.inr htrim)]
      · rintro (rfl | h2)
        · exact absurd rfl hce
        · rw [hin] at h2; cases h2
    · have hin' : ¬ (strContains text cand = true) := hin
      rw [create_highlight_interface, if_neg hce, if_neg hin']
      exact ⟨rfl, fun _ => by simp⟩

/-- C5 witness: the empty candidate against a non-empty store state. -/
theorem rejected_submit_no_side_effect_witness :
    ((strip "" = "" ∨ strContains "abc" "" = false) ∧
      (("" : String) = "" ∨ strContains "abc" "" = false)) ∧
    ((create_highlight_interface (FileState.stored [("a1", [⟨"x", "c", 0⟩])]) "abc" "a1" "c"
        "" 0).2 = FileState.stored [("a1", [⟨"x", "c", 0⟩])] ∧
      ((("" : String) = "" ∨ strContains "abc" "" = false) →
        (create_highlight_interface (FileState.stored [("a1", [⟨"x", "c", 0⟩])]) "abc" "a1" "c"
          "" 0).1 ≠ SubmitResult.success)) :=
  ⟨⟨Or.inl (by decide), Or.inl (by decide)⟩,
    rejected_submit_no_side_effect (FileState.stored [("a1", [⟨"x", "c", 0⟩])]) "abc" "a1" "c"
      "" 0 (Or.inl (by decide))⟩

/-- C6 (confirmed): for every article id, load over a missing backing file
and load over an unparseable backing file both return the empty list; both
are total functions, the source catching FileNotFoundError and
JSONDecodeError and returning the empty dict. -/
theorem load_degrades_to_empty (article_id : String) :
    get_highlights FileState.absent article_id = [] ∧
    get_highlights FileState.corrupt article_id = [] :=
  ⟨rfl, rfl⟩

/-- C10 (confirmed): a save under one article id leaves the stored record
list of every other article id unchanged: the whole-file read-modify-write
only touches the submitting id's entry. -/
theorem save_preserves_other_ids (st : FileState) (id1 id2 t c : String) (n : Nat)
    (h : id1 ≠ id2) :
    get_highlights (save_highlight st id1 t c n) id2 = get_highlights st id2 := by
  by_cases hg : (t = "" ∨ (strip t) = "")
  · rw [save_highlight, if_pos hg]
  · rw [save_highlight, if_neg hg]
    show dictGet (dictSet (load_highlights st) id1 _) id2 = _
    rw [dictGet_dictSet_ne _ _ _ _ h]
    rfl

/-- C10 witness: a concrete save under "a1" leaves "b2" untouched. -/
theorem save_preserves_other_ids_witness :
    ("a1" : String) ≠ "b2" ∧
    get_highlights (save_highlight (FileState.stored [("b2", [⟨"y", "c", 3⟩])]) "a1"
        "hello" "c" 0) "b2"
      = get_highlights (FileState.stored [("b2", [⟨"y", "c", 3⟩])]) "b2" :=
  ⟨by decide,
    save_preserves_other_ids (FileState.stored [("b2", [⟨"y", "c", 3⟩])]) "a1" "b2"
      "hello" "c" 0 (by decide)⟩

/-- A submit call running against the shared store, identified by its
arguments. -/
structure PendingOp where
  article_id : String
  text : String
  context : String
  now : Nat
deriving DecidableEq

/-- Progress of one save_highlight call, split at its only file-I/O
boundary: the body first reads the whole file (load_highlights), then
writes back the modified mapping (save_highlights).  The source takes no
lock between the two, so steps of different calls may interleave. -/
inductive OpState where
  | notStarted
  | readDone (snapshot : StoreMap)
  | finished
deriving DecidableEq

/-- One atomic step of a save_highlight call: the validation plus whole-file
read, or the whole-file write computed from the call's own earlier
snapshot. -/
def stepOp (st : FileState) (op : PendingOp) : OpState → OpState × FileState
  | .notStarted =>
    if op.text = "" ∨ strip op.text = "" then (.finished, st)
    else (.readDone (load_highlights st), st)
  | .readDone snapshot =>
    (.finished, save_highlights (dictSet snapshot op.article_id
      (dictGet snapshot op.article_id ++ [⟨strip op.text, op.context, op.now⟩])))
  | .finished => (.finished, st)

/-- Run an interleaving: the schedule names which pending call performs its
next step, in order. -/
def runSchedule : List Nat → FileState → List (PendingOp × OpState) →
    FileState × List (PendingOp × OpState)
  | [], st, ops => (st, ops)
  | i :: rest, st, ops =>
    match ops.get? i with
    | none => runSchedule rest st ops
    | some (op, os) =>
      let p := stepOp st op os
      runSchedule rest p.2 (ops.set i (op, p.1))

/-- C3 counterexample: two submits of the distinct valid texts "alpha" and
"beta" against the same article, interleaved read-read-write-write.  Both
calls run to completion, yet the final store holds only the second record:
the unserialized read-modify-write loses the first write. -/
theorem concurrent_submits_lose_write :
    (runSchedule [0, 1, 0, 1] FileState.absent
        [(⟨"a1", "alpha", "c", 0⟩, OpState.notStarted),
         (⟨"a1", "beta", "c", 1⟩, OpState.notStarted)]).2
      = [(⟨"a1", "alpha", "c", 0⟩, OpState.finished),
         (⟨"a1", "beta", "c", 1⟩, OpState.finished)] ∧
    get_highlights (runSchedule [0, 1, 0, 1] FileState.absent
        [(⟨"a1", "alpha", "c", 0⟩, OpState.notStarted),
         (⟨"a1", "beta", "c", 1⟩, OpState.notStarted)]).1 "a1"
      = [⟨"beta", "c", 1⟩] ∧
    (⟨"alpha", "c", 0⟩ : HighlightRecord) ∉
      get_highlights (runSchedule [0, 1, 0, 1] FileState.absent
        [(⟨"a1", "alpha", "c", 0⟩, OpState.notStarted),
         (⟨"a1", "beta", "c", 1⟩, OpState.notStarted)]).1 "a1" := by decide

/-- N submit calls executed one after the other, each running its whole
read-modify-write before the next starts. -/
def submitAll (article_id : String) : FileState → List (String × String × Nat) → FileState
  | st, [] => st
  | st, (t, c, n) :: rest => submitAll article_id (save_highlight st article_id t c n) rest

/-- C3 (corrected): when the N submit calls are serialized, every record
survives, in arrival order, appended after whatever the article already
had; the source itself, however, takes no lock around the read-modify-write,
so interleaved calls can lose records, as the counterexample shows. -/
theorem serialized_submits_all_survive (article_id : String) :
    ∀ (ops : List (String × String × Nat)) (st : FileState),
      (∀ o ∈ ops, strip o.1 ≠ "") →
      get_highlights (submitAll article_id st ops) article_id
        = get_highlights st article_id
          ++ ops.map (fun o => (⟨strip o.1, o.2.1, o.2.2⟩ : HighlightRecord)) := by
  intro ops
  induction ops with
  | nil => intro st _; simp [submitAll]
  | cons o rest ih =>
    intro st h
    obtain ⟨t, c, n⟩ := o
    show get_highlights (submitAll article_id (save_highlight st article_id t c n) rest)
        article_id = _
    rw [ih _ (fun o ho => h o (List.mem_cons_of_mem _ ho))]
    rw [get_highlights_save st article_id t c n (h _ (List.mem_cons_self _ _))]
    simp

/-- C3 witness: two serialized submits with distinct valid texts both appear
in load, in order. -/
theorem serialized_submits_all_survive_witness :
    (∀ o ∈ [("alpha", "c", 0), ("beta", "c", 1)], strip (o.1 : String) ≠ "") ∧
    get_highlights (submitAll "a1" FileState.absent
        [("alpha", "c", 0), ("beta", "c", 1)]) "a1"
      = get_highlights FileState.absent "a1"
        ++ [("alpha", "c", 0), ("beta", "c", 1)].map
            (fun o => (⟨strip o.1, o.2.1, o.2.2⟩ : HighlightRecord)) :=
  ⟨by decide,
    serialized_submits_all_survive "a1" [("alpha", "c", 0), ("beta", "c", 1)]
      FileState.absent (by decide)⟩

/-- A section produced by split_content_into_sections of src/doc_utils.py:
optional heading title, body text, and Word heading level. -/
structure Section where
  title : Option String
  content : String
  level : Nat
deriving DecidableEq, Repr

/-- Length of the leading run of the heading delimiter character. -/
def countEq : List Char → Nat
  | '=' :: rest => countEq rest + 1
  | _ => 0

/-- Length of the leading whitespace run. -/
def wsRun : List Char → Nat
  | c :: rest => if isPyWs c then wsRun rest + 1 else 0
  | [] => 0

/-- Greedy closing whitespace of the heading pattern: skip j whitespace
characters, longest first, so that the delimiter run matches right after;
returns the total length consumed by whitespace plus delimiter. -/
def tryDelim (delim s : List Char) : Nat → Option Nat
  | 0 => if litPref delim s then some delim.length else none
  | j + 1 =>
    if litPref delim (s.drop (j + 1)) then some (j + 1 + delim.length)
    else tryDelim delim s j

/-- Match of whitespace-then-delimiter at the head of s, whitespace greedy. -/
def wsDelim (delim s : List Char) : Option Nat :=
  tryDelim delim s (wsRun s)

/-- Lazy title of the heading pattern: extend the title one non-newline
character at a time, shortest first, until the whitespace-plus-delimiter
close matches; returns the title and the characters consumed from the title
on. -/
def lazyTitle (delim : List Char) : List Char → Option (List Char × Nat)
  | [] =>
    match wsDelim delim [] with
    | some c => some ([], c)
    | none => none
  | x :: xs =>
    match wsDelim delim (x :: xs) with
    | some c => some ([], c)
    | none =>
      if x == '\n' then none
      else
        match lazyTitle delim xs with
        | some p => some (x :: p.1, p.2 + 1)
        | none => none

/-- Heading match attempt for one delimiter-run length d: skip the d
delimiter characters, the greedy leading whitespace, then the lazy title
and its close; returns (level d, title, total matched length). -/
def matchDelimLen (s : List Char) (d : Nat) : Option (Nat × List Char × Nat) :=
  let delim := List.replicate d '='
  let rest := s.drop d
  let w := wsRun rest
  match lazyTitle delim (rest.drop w) with
  | some p => some (d, p.1, d + w + p.2)
  | none => none

/-- Backtracking of the greedy bounded delimiter run: try run length d
first, then shorter runs down to the minimum of 2. -/
def matchHeadingDesc (s : List Char) : Nat → Option (Nat × List Char × Nat)
  | 0 => none
  | 1 => none
  | d + 2 =>
    match matchDelimLen s (d + 2) with
    | some r => some r
    | none => matchHeadingDesc s (d + 1)

/-- The heading pattern of src/doc_utils.py, a run of 2 to 6 delimiter
characters, optional whitespace, a lazy title, optional whitespace, and the
same run again, matched at the current position; the MULTILINE line-start
anchor is checked by the caller. -/
def matchHeading (s : List Char) : Option (Nat × List Char × Nat) :=
  matchHeadingDesc s (min (countEq s) 6)

/-- finditer over the text with MULTILINE: scan every position, match only
where the line-start anchor holds (start of text or just after a newline),
and continue past each match; collects (position, level, title, matched
length).  The fuel is the scan bound; the caller passes length + 1, which
the scan cannot exhaust since every step consumes at least one character. -/
def findHeadingsF : Nat → List Char → Nat → Bool → List (Nat × Nat × List Char × Nat)
  | 0, _, _, _ => []
  | fuel + 1, s, pos, lineStart =>
    match s with
    | [] => []
    | x :: xs =>
      if lineStart then
        match matchHeading (x :: xs) with
        | some (d, t, len) =>
          (pos, d, t, len) :: findHeadingsF fuel ((x :: xs).drop len) (pos + len) false
        | none => findHeadingsF fuel xs (pos + 1) (x == '\n')
      else findHeadingsF fuel xs (pos + 1) (x == '\n')

/-- All heading matches of the text, with their positions. -/
def findHeadings (s : List Char) : List (Nat × Nat × List Char × Nat) :=
  findHeadingsF (s.length + 1) s 0 true

/-- re.search of the heading pattern inside a slice: the first match,
scanning left to right; the anchor holds at the slice start. -/
def searchHeadingFrom : List Char → Nat → Bool → Option (Nat × Nat × List Char × Nat)
  | [], _, _ => none
  | x :: xs, offset, lineStart =>
    if lineStart then
      match matchHeading (x :: xs) with
      | some (d, t, len) => some (offset, d, t, len)
      | none => searchHeadingFrom xs (offset + 1) (x == '\n')
    else searchHeadingFrom xs (offset + 1) (x == '\n')

/-- Stable insertion step for the headings.sort() call, ordering by match
position (positions of distinct matches are distinct, so the rest of the
tuple never decides). -/
def insByPos (h : Nat × Nat × List Char × Nat) :
    List (Nat × Nat × List Char × Nat) → List (Nat × Nat × List Char × Nat)
  | [] => [h]
  | h' :: rest => if h.1 ≤ h'.1 then h :: h' :: rest else h' :: insByPos h rest

/-- headings.sort(): stable ascending sort by position. -/
def sortByPos (l : List (Nat × Nat × List Char × Nat)) :
    List (Nat × Nat × List Char × Nat) :=
  l.foldr insByPos []

/-- The per-heading loop of split_content_into_sections: each section's
content runs from just after its heading match, found again by re.search
inside the slice up to the next heading, to the slice end, stripped; the
level is the delimiter-run length halved. -/
def buildSections (cs : List Char) : List (Nat × Nat × List Char × Nat) → List Section
  | [] => []
  | (pos, d, title, _) :: rest =>
    let endPos := match rest with
      | (p, _, _, _) :: _ => p
      | [] => cs.length
    let slice := (cs.take endPos).drop pos
    let sectionContent := match searchHeadingFrom slice 0 true with
      | some (start, _, _, len) => pyStrip (slice.drop (start + len))
      | none => pyStrip slice
    ⟨some ⟨title⟩, ⟨sectionContent⟩, d / 2⟩ :: buildSections cs rest

/-- split_content_into_sections from src/doc_utils.py: text before the
first heading becomes an untitled leading section when non-empty, each
heading opens a section running to the next heading or the end, and a text
with no headings at all is one untitled section holding the whole text. -/
def split_content_into_sections (content : String) : List Section :=
  let cs := content.data
  let headings := sortByPos (findHeadings cs)
  let intro : List Section :=
    match headings with
    | [] => []
    | (firstPos, _, _, _) :: _ =>
      let introContent := pyStrip (cs.take firstPos)
      if introContent.isEmpty then [] else [⟨none, ⟨introContent⟩, 0⟩]
  let sections := intro ++ buildSections cs headings
  if sections.isEmpty then [⟨none, content, 0⟩] else sections

/-- C9 (confirmed): the heading-marker split of
"intro\n== A ==\nbody1\n== B ==\nbody2" is exactly the untitled section
"intro", then section "A" with body "body1", then section "B" with body
"body2", in that order. -/
theorem split_sections_roundtrip :
    split_content_into_sections "intro\n== A ==\nbody1\n== B ==\nbody2"
      = [⟨none, "intro", 0⟩, ⟨some "A", "body1", 1⟩, ⟨some "B", "body2", 1⟩] := by decide

end WikiTruth
